import Mathlib

/-!
Verification of `src/addon/firstrun.py` (first-run / config-migration routine
of the "Edit Field During Review Cloze Enhanced" add-on).

The Python module is shallowly embedded below.  Configuration values are a
dynamically typed universe `Value`; the configuration store is an association
list of flat (dot-separated) string keys, together with a `saved` flag that
records whether the last mutation has been flushed by `conf.save()`.

Python exceptions (KeyError on `conf[k]` for a missing key, IndexError on
`opts[1]`, ValueError from `int()` on a non-numeric string, TypeError from
ordering a string against an int) are modelled by `Option`: a `none` result
means the original code raises and the module aborts at that point.
-/

/-- A Python value as stored in the add-on configuration.  Only the shapes the
module manipulates are represented: ints, bools, strings, `None`, lists and
(string-keyed) dicts. -/
inductive Value where
  | int (n : Int)
  | bool (b : Bool)
  | str (s : String)
  | none
  | list (elems : List Value)
  | dict (entries : List (String × Value))

/-- Python truthiness (`if x:`): `None`, `False`, `0`, `""`, `[]`, `{}` are
falsy, everything else of the represented shapes is truthy. -/
def Value.truthy : Value → Bool
  | Value.int n => decide (n ≠ 0)
  | Value.bool b => b
  | Value.str s => decide (s ≠ "")
  | Value.none => false
  | Value.list xs => !xs.isEmpty
  | Value.dict es => !es.isEmpty

/-- Python `v == m` where `m` is an int.  `bool` compares numerically
(`True == 1`); strings, `None`, lists, dicts never equal an int. -/
def pyEqInt : Value → Int → Bool
  | Value.int n, m => decide (n = m)
  | Value.bool b, m => decide ((if b then (1 : Int) else 0) = m)
  | _, _ => false

/-- Python `v > m` where `m` is an int; non-numeric values raise TypeError
(`none`). -/
def pyGtInt : Value → Int → Option Bool
  | Value.int n, m => some (decide (m < n))
  | Value.bool b, m => some (decide (m < (if b then (1 : Int) else 0)))
  | _, _ => Option.none

/-- Python `v < m` where `m` is an int; non-numeric values raise TypeError
(`none`). -/
def pyLtInt : Value → Int → Option Bool
  | Value.int n, m => some (decide (n < m))
  | Value.bool b, m => some (decide ((if b then (1 : Int) else 0) < m))
  | _, _ => Option.none

/-- Accumulate the value of a decimal digit string. -/
def digitsValAux : Nat → List Char → Option Nat
  | acc, [] => some acc
  | acc, c :: cs =>
      if c.isDigit then digitsValAux (acc * 10 + (c.toNat - 48)) cs
      else Option.none

/-- Python `int(s)` on an optionally signed decimal string; any other form
(empty string, stray characters) raises ValueError (`none`). -/
def parsePyInt (s : String) : Option Int :=
  match s.data with
  | [] => Option.none
  | '-' :: cs =>
      if cs = [] then Option.none
      else (digitsValAux 0 cs).map (fun n => -(n : Int))
  | '+' :: cs =>
      if cs = [] then Option.none
      else (digitsValAux 0 cs).map (fun n => (n : Int))
  | cs => (digitsValAux 0 cs).map (fun n => (n : Int))

/-- First value bound to key `k` in an association list (Python dict lookup;
`none` is a KeyError). -/
def lookupEntries (k : String) : List (String × Value) → Option Value
  | [] => Option.none
  | (k2, v) :: rest => if k2 = k then some v else lookupEntries k rest

/-- Bind key `k` to `v`: replace the first binding of `k`, or append a fresh
binding at the end (Python dict assignment). -/
def updateEntries (k : String) (v : Value) : List (String × Value) → List (String × Value)
  | [] => [(k, v)]
  | (k2, v2) :: rest =>
      if k2 = k then (k, v) :: rest else (k2, v2) :: updateEntries k v rest

/-- Remove every binding of key `k` (Python `del d[k]`). -/
def removeEntries (k : String) : List (String × Value) → List (String × Value)
  | [] => []
  | (k2, v2) :: rest =>
      if k2 = k then removeEntries k rest else (k2, v2) :: removeEntries k rest

/-- Modelled from the spec: the `ConfigManager` class imported from
`.ankiaddonconfig` is not part of `src/`; the spec describes it as a
"key-value configuration store" with guarded mutation and an explicit
`conf.save()`.  It is modelled as an association list of flat dotted keys
(the module only ever addresses entries by full dotted strings) plus a
`saved` flag: every mutation clears the flag, `save` sets it.
`conf[k]` on an absent key is an error (KeyError), `conf.get(k, d)` defaults,
`k in conf` tests presence. -/
structure Config where
  entries : List (String × Value)
  saved : Bool

/-- `conf[k]` (read): `none` models KeyError / absence. -/
def Config.get (c : Config) (k : String) : Option Value :=
  lookupEntries k c.entries

/-- `conf.get(k, d)`. -/
def Config.getD (c : Config) (k : String) (d : Value) : Value :=
  (c.get k).getD d

/-- `conf[k] = v`. -/
def Config.set (c : Config) (k : String) (v : Value) : Config :=
  ⟨updateEntries k v c.entries, false⟩

/-- `del conf[k]`. -/
def Config.del (c : Config) (k : String) : Config :=
  ⟨removeEntries k c.entries, false⟩

/-- `conf.save()`. -/
def Config.save (c : Config) : Config :=
  ⟨c.entries, true⟩

/-- The `Version` class (firstrun.py lines 12–41): a pair of loosely typed
fields read from the configuration. -/
structure Version where
  major : Value
  minor : Value

/-- `Version.load` (lines 16–23), including the slip on line 23: when
`self.minor` is a string the code assigns `self.major = int(self.minor)`,
leaving `self.minor` untouched.

```
self.major = conf["version.major"]
self.minor = conf["version.minor"]
if isinstance(self.major, str):
    self.major = int(self.major)
if isinstance(self.minor, str):
    self.major = int(self.minor)
```
-/
def Version.load (c : Config) : Option Version := do
  let major0 ← c.get "version.major"
  let minor0 ← c.get "version.minor"
  let major1 ←
    match major0 with
    | Value.str s => (parsePyInt s).map Value.int
    | v => some v
  let major2 ←
    match minor0 with
    | Value.str s => (parsePyInt s).map Value.int
    | _ => some major1
  some ⟨major2, minor0⟩

/-- Split a character list at `'.'`, accumulating the current chunk
(reversed). -/
def splitDotAux : List Char → List Char → List String
  | [], acc => [String.mk acc.reverse]
  | c :: cs, acc =>
      if c = '.' then String.mk acc.reverse :: splitDotAux cs []
      else splitDotAux cs (c :: acc)

/-- Python `s.split(".")`: the chunks between the dots; `"".split(".")` is
`[""]`. -/
def splitDot (s : String) : List String :=
  splitDotAux s.data []

/-- `[int(i) for i in other.split(".")]`. -/
def parseVerList (other : String) : Option (List Int) :=
  (splitDot other).mapM parsePyInt

/-- `Version.__eq__` (lines 25–27): `self.major == ver[0] and self.minor == ver[1]`. -/
def Version.veq (v : Version) (other : String) : Option Bool := do
  let ver ← parseVerList other
  let a ← ver[0]?
  let b ← ver[1]?
  some (pyEqInt v.major a && pyEqInt v.minor b)

/-- `Version.__gt__` (lines 29–31), with Python short-circuit evaluation:
`self.major > ver[0] or (self.major == ver[0] and self.minor > ver[1])`. -/
def Version.vgt (v : Version) (other : String) : Option Bool := do
  let ver ← parseVerList other
  let a ← ver[0]?
  let b ← ver[1]?
  let g1 ← pyGtInt v.major a
  if g1 then some true
  else if pyEqInt v.major a then pyGtInt v.minor b
  else some false

/-- `Version.__lt__` (lines 33–35), with Python short-circuit evaluation. -/
def Version.vlt (v : Version) (other : String) : Option Bool := do
  let ver ← parseVerList other
  let a ← ver[0]?
  let b ← ver[1]?
  let g1 ← pyLtInt v.major a
  if g1 then some true
  else if pyEqInt v.major a then pyLtInt v.minor b
  else some false

/-- `Version.__ge__` (lines 37–38): `self == other or self > other`. -/
def Version.vge (v : Version) (other : String) : Option Bool := do
  let e ← v.veq other
  if e then some true else v.vgt other

/-- `Version.__le__` (lines 40–41): `self == other or self < other`. -/
def Version.vle (v : Version) (other : String) : Option Bool := do
  let e ← v.veq other
  if e then some true else v.vlt other

/-- Module state: the global `conf` and the module-level `version` object. -/
structure ModState where
  conf : Config
  version : Version

/-- `distinguish_initial_install` (lines 52–59):

```
if not version == "-1.-1":
    return
if conf.get("undo", None):
    conf["version.major"] = 0
    conf["version.minor"] = 0
    conf.save()
    version.load()
```
-/
def distinguish_initial_install (s : ModState) : Option ModState := do
  let e ← s.version.veq "-1.-1"
  if e = false then some s
  else if (s.conf.getD "undo" Value.none).truthy then do
    let c2 := ((s.conf.set "version.major" (Value.int 0)).set
        "version.minor" (Value.int 0)).save
    let v2 ← Version.load c2
    some ⟨c2, v2⟩
  else some s

/-- `change_resize_image_preserve_ratio` (lines 68–77):

```
resize_conf = conf["resize_image_preserve_ratio"]
if not isinstance(resize_conf, bool):
    return
if resize_conf:
    conf["resize_image_preserve_ratio"] = 1
else:
    conf["resize_image_preserve_ratio"] = 0
conf.save()
```
-/
def change_resize_image_preserve_ratio (c : Config) : Option Config := do
  let resize_conf ← c.get "resize_image_preserve_ratio"
  match resize_conf with
  | Value.bool b =>
      some ((c.set "resize_image_preserve_ratio"
        (Value.int (if b then 1 else 0))).save)
  | _ => some c

/-- The key `f"special_formatting.{key}.enabled"`. -/
def sfEnKey (key : String) : String :=
  "special_formatting." ++ key ++ ".enabled"

/-- The key `f"special_formatting.{key}.arg"`. -/
def sfArgKey (key : String) : String :=
  "special_formatting." ++ key ++ ".arg"

/-- `"color" if key in ["fontcolor", "highlight"] else "text"` (line 97). -/
def sfArgType (key : String) : String :=
  if key = "fontcolor" ∨ key = "highlight" then "color" else "text"

/-- Lines 88–93: `enabled`/`arg` extracted from one `z_special_formatting`
entry.  A list yields `(opts[0], opts[1])` — `none` models the IndexError
when the list is too short; any other value yields `(opts, None)`. -/
def sfEnabledArg : Value → Option (Value × Value)
  | Value.list l => do
      let e ← l[0]?
      let a ← l[1]?
      some (e, a)
  | v => some (v, Value.none)

/-- Python `v[key]` for a string key: dict lookup; on any other value a
TypeError (`none`). -/
def dictLookup : Value → String → Option Value
  | Value.dict d, key => lookupEntries key d
  | _, _ => Option.none

/-- One iteration of the loop in `change_special_formatting` (lines 86–99).
`conf["z_special_formatting"][key]` is re-read from the current config, as in
the source. -/
def sfProcessKey (c : Config) (key : String) : Option Config := do
  let z ← c.get "z_special_formatting"
  let opts ← dictLookup z key
  let ea ← sfEnabledArg opts
  let c1 := c.set (sfEnKey key) ea.1
  match ea.2 with
  | Value.none => some c1
  | a => some (c1.set (sfArgKey key)
      (Value.dict [("type", Value.str (sfArgType key)), ("value", a)]))

/-- `change_special_formatting` (lines 83–102).  Iterating a present
non-dict value is modelled as an error (indexing a string or a list by a
string key raises in Python). -/
def change_special_formatting (c : Config) : Option Config :=
  match c.get "z_special_formatting" with
  | Option.none => some c
  | some (Value.dict d) => do
      let cN ← List.foldlM sfProcessKey c (d.map Prod.fst)
      some ((cN.del "z_special_formatting").save)
  | some _ => Option.none

/-- `remove_undo` (lines 108–112). -/
def remove_undo (c : Config) : Config :=
  if (c.get "undo").isSome then (c.del "undo").save else c

/-- Lines 204–208: `os.environ.get("EFDRC_VERSION")`, falling back (when the
variable is unset or empty, i.e. falsy) to
`meta.get("human_version", "6.23")`. -/
def choose_version_string (env : Option String) (human : Option String) : String :=
  match env with
  | some s => if s = "" then human.getD "6.23" else s
  | Option.none => human.getD "6.23"

/-- Lines 210–212:

```
conf["version.major"] = int(version_string.split(".")[0])
conf["version.minor"] = int(version_string.split(".")[1])
conf.save()
```
-/
def save_current_version (c : Config) (version_string : String) : Option Config := do
  let maj ← ((splitDot version_string)[0]?).bind parsePyInt
  let c1 := c.set "version.major" (Value.int maj)
  let minr ← ((splitDot version_string)[1]?).bind parsePyInt
  some ((c1.set "version.minor" (Value.int minr)).save)

/-- Observation record: which of the module's one-time decisions fired on a
given run (whether `distinguish_initial_install` rewrote the version, which
migrations applied, and whether the tutorial dialog was shown). -/
structure Decisions where
  rewrote : Bool
  resized : Bool
  flattened : Bool
  removedUndo : Bool
  tutorial : Bool
deriving DecidableEq

/-- Lines 44–201 of the module: load `version`, run the three migrations and
`distinguish_initial_install` in source order, and evaluate the tutorial
guard `if version == "-1.-1"`.  Returns the configuration just before the
final version stamping, paired with the `Decisions` observations. -/
def pre_version_pipeline (c0 : Config) : Option (Config × Decisions) := do
  let v ← Version.load c0
  let s1 ← distinguish_initial_install ⟨c0, v⟩
  let c2 ← change_resize_image_preserve_ratio s1.conf
  let c3 ← change_special_formatting c2
  let c4 := remove_undo c3
  let shown ← s1.version.veq "-1.-1"
  some (c4, ⟨(v.veq "-1.-1").getD false && (c0.getD "undo" Value.none).truthy,
    match s1.conf.get "resize_image_preserve_ratio" with
    | some (Value.bool _) => true
    | _ => false,
    (c2.get "z_special_formatting").isSome,
    (c3.get "undo").isSome,
    shown⟩)

/-- The whole module, parameterised by the computed `version_string`. -/
def firstrun_with (c0 : Config) (version_string : String) :
    Option (Config × Decisions) := do
  let p ← pre_version_pipeline c0
  let c5 ← save_current_version p.1 version_string
  some (c5, p.2)

/-- The whole module run (lines 44–212): `version_string` is chosen from the
`EFDRC_VERSION` environment variable and the add-on metadata. -/
def firstrun_module (c0 : Config) (env human : Option String) :
    Option (Config × Decisions) :=
  firstrun_with c0 (choose_version_string env human)

/-- Lines 44–62 only: the module state right after
`distinguish_initial_install` has run. -/
def after_distinguish (c0 : Config) : Option ModState := do
  let v ← Version.load c0
  distinguish_initial_install ⟨c0, v⟩

/-- The key `q` starts with `"special_formatting."` (the module writes all
flattened entries under that namespace). -/
def sfKeyPref (q : String) : Bool :=
  "special_formatting.".data.isPrefixOf q.data

/-- The configuration written by the `version == "-1.-1" and undo` branch of
`distinguish_initial_install`. -/
def rewritten_conf (c : Config) : Config :=
  ((c.set "version.major" (Value.int 0)).set "version.minor" (Value.int 0)).save

/-- The configuration written by one loop iteration for `key` with extracted
`enabled`/`arg` values (lines 94–99). -/
def sfWrite (c : Config) (key : String) (e a : Value) : Config :=
  match a with
  | Value.none => c.set (sfEnKey key) e
  | _ => (c.set (sfEnKey key) e).set (sfArgKey key)
      (Value.dict [("type", Value.str (sfArgType key)), ("value", a)])

/-! ### Concrete configurations for witnesses and counterexamples -/

/-- A v6.x-style configuration: version stored as strings "6"/"23". -/
def v6_conf : Config :=
  ⟨[("version.major", Value.str "6"), ("version.minor", Value.str "23")], true⟩

/-- Fresh-install configuration: integer version `-1.-1`, no `undo` key. -/
def fresh_conf : Config :=
  ⟨[("version.major", Value.int (-1)), ("version.minor", Value.int (-1)),
    ("resize_image_preserve_ratio", Value.int 1)], true⟩

/-- A mixed-type configuration: `version.major` stored as the STRING `"-1"`
while `version.minor` is the integer `-1`. -/
def mixed_conf : Config :=
  ⟨[("version.major", Value.str "-1"), ("version.minor", Value.int (-1)),
    ("resize_image_preserve_ratio", Value.int 1)], true⟩

/-- An already-migrated configuration (integer version `5.0`). -/
def plain_conf : Config :=
  ⟨[("version.major", Value.int 5), ("version.minor", Value.int 0),
    ("resize_image_preserve_ratio", Value.bool true)], true⟩

/-- A configuration with a boolean `resize_image_preserve_ratio`. -/
def resize_conf_w : Config :=
  ⟨[("resize_image_preserve_ratio", Value.bool true)], true⟩

/-- The legacy `z_special_formatting` dict used in the C6 witness. -/
def z_dict_w : List (String × Value) :=
  [("fontcolor", Value.list [Value.bool true, Value.str "red"]),
   ("bold", Value.bool false)]

/-- A configuration holding the legacy `z_special_formatting` dict. -/
def special_conf_w : Config :=
  ⟨[("z_special_formatting", Value.dict z_dict_w), ("other", Value.int 7)], true⟩

/-- The outcome `change_resize_image_preserve_ratio` is claimed to produce
when the stored value is `v`: booleans become the integers 1/0 and the
config is saved, everything else is left untouched. -/
def resizeResult (c : Config) (v : Value) : Config :=
  match v with
  | Value.bool true => (c.set "resize_image_preserve_ratio" (Value.int 1)).save
  | Value.bool false => (c.set "resize_image_preserve_ratio" (Value.int 0)).save
  | _ => c

/-- A `Version` whose two fields are Python ints. -/
def intVersion (a b : Int) : Version :=
  ⟨Value.int a, Value.int b⟩

/-! ### Association-list and `Config` lemmas -/

theorem lookupEntries_updateEntries_self (k : String) (v : Value) :
    ∀ l, lookupEntries k (updateEntries k v l) = some v := by
  intro l
  induction l with
  | nil => simp [lookupEntries, updateEntries]
  | cons p rest ih =>
      obtain ⟨k2, v2⟩ := p
      by_cases h : k2 = k
      · simp [lookupEntries, updateEntries, h]
      · simp [lookupEntries, updateEntries, h, ih]

theorem lookupEntries_updateEntries_of_ne (q k : String) (v : Value)
    (hne : q ≠ k) :
    ∀ l, lookupEntries q (updateEntries k v l) = lookupEntries q l := by
  intro l
  have hne2 : k ≠ q := Ne.symm hne
  induction l with
  | nil => simp [lookupEntries, updateEntries, hne2]
  | cons p rest ih =>
      obtain ⟨k2, v2⟩ := p
      by_cases h : k2 = k
      · subst h
        simp [lookupEntries, updateEntries, hne2]
      · simp [lookupEntries, updateEntries, h, ih]

theorem lookupEntries_removeEntries_self (k : String) :
    ∀ l, lookupEntries k (removeEntries k l) = Option.none := by
  intro l
  induction l with
  | nil => simp [lookupEntries, removeEntries]
  | cons p rest ih =>
      obtain ⟨k2, v2⟩ := p
      by_cases h : k2 = k
      · simp [removeEntries, h, ih]
      · simp [lookupEntries, removeEntries, h, ih]

theorem lookupEntries_removeEntries_of_ne (q k : String) (hne : q ≠ k) :
    ∀ l, lookupEntries q (removeEntries k l) = lookupEntries q l := by
  intro l
  have hne2 : k ≠ q := Ne.symm hne
  induction l with
  | nil => simp [removeEntries]
  | cons p rest ih =>
      obtain ⟨k2, v2⟩ := p
      by_cases h : k2 = k
      · subst h
        simp [lookupEntries, removeEntries, hne2, ih]
      · simp [lookupEntries, removeEntries, h, ih]

theorem mem_of_lookupEntries (k : String) (v : Value) :
    ∀ l, lookupEntries k l = some v → (k, v) ∈ l := by
  intro l
  induction l with
  | nil => intro h; simp [lookupEntries] at h
  | cons p rest ih =>
      obtain ⟨k2, v2⟩ := p
      intro h
      by_cases hk : k2 = k
      · subst hk
        simp [lookupEntries] at h
        simp [h]
      · simp [lookupEntries, hk] at h
        exact List.mem_cons_of_mem _ (ih h)

theorem lookupEntries_isSome_of_mem_keys (k : String) :
    ∀ l : List (String × Value), k ∈ l.map Prod.fst →
      ∃ v, lookupEntries k l = some v := by
  intro l
  induction l with
  | nil => intro h; simp at h
  | cons p rest ih =>
      obtain ⟨k2, v2⟩ := p
      intro h
      by_cases hk : k2 = k
      · exact ⟨v2, by simp [lookupEntries, hk]⟩
      · have : k ∈ rest.map Prod.fst := by
          rcases List.mem_cons.mp h with h1 | h1
          · exact absurd h1.symm hk
          · exact h1
        obtain ⟨v, hv⟩ := ih this
        exact ⟨v, by simp [lookupEntries, hk, hv]⟩

theorem Config.get_set_self (c : Config) (k : String) (v : Value) :
    (c.set k v).get k = some v :=
  lookupEntries_updateEntries_self k v c.entries

theorem Config.get_set_of_ne (c : Config) (q k : String) (v : Value)
    (hne : q ≠ k) : (c.set k v).get q = c.get q :=
  lookupEntries_updateEntries_of_ne q k v hne c.entries

theorem Config.get_del_self (c : Config) (k : String) :
    (c.del k).get k = Option.none :=
  lookupEntries_removeEntries_self k c.entries

theorem Config.get_del_of_ne (c : Config) (q k : String) (hne : q ≠ k) :
    (c.del k).get q = c.get q :=
  lookupEntries_removeEntries_of_ne q k hne c.entries

theorem Config.get_save (c : Config) (q : String) :
    c.save.get q = c.get q := rfl

/-! ### Key-shape lemmas for `special_formatting` keys -/

theorem sfEnKey_data (k : String) :
    (sfEnKey k).data = "special_formatting.".data ++ k.data ++ ".enabled".data := by
  simp [sfEnKey, String.data_append]

theorem sfArgKey_data (k : String) :
    (sfArgKey k).data = "special_formatting.".data ++ k.data ++ ".arg".data := by
  simp [sfArgKey, String.data_append]

theorem sfEnKey_inj {k1 k2 : String} (h : sfEnKey k1 = sfEnKey k2) : k1 = k2 := by
  have hd := congrArg String.data h
  rw [sfEnKey_data, sfEnKey_data] at hd
  have h1 := List.append_cancel_right hd
  have h2 := List.append_cancel_left h1
  exact String.ext h2

theorem sfArgKey_inj {k1 k2 : String} (h : sfArgKey k1 = sfArgKey k2) : k1 = k2 := by
  have hd := congrArg String.data h
  rw [sfArgKey_data, sfArgKey_data] at hd
  have h1 := List.append_cancel_right hd
  have h2 := List.append_cancel_left h1
  exact String.ext h2

theorem sfEnKey_ne_sfArgKey (k1 k2 : String) : sfEnKey k1 ≠ sfArgKey k2 := by
  intro h
  have hd := congrArg String.data h
  rw [sfEnKey_data, sfArgKey_data] at hd
  have h1 := congrArg List.getLast? hd
  rw [List.getLast?_append_of_ne_nil _ (by decide),
    List.getLast?_append_of_ne_nil _ (by decide)] at h1
  simp at h1

theorem z_key_ne_sfEnKey (k : String) : "z_special_formatting" ≠ sfEnKey k := by
  intro h
  have hd := congrArg String.data h
  rw [sfEnKey_data] at hd
  have h1 := congrArg List.head? hd
  rw [List.append_assoc] at h1
  simp [List.head?_append] at h1

theorem z_key_ne_sfArgKey (k : String) : "z_special_formatting" ≠ sfArgKey k := by
  intro h
  have hd := congrArg String.data h
  rw [sfArgKey_data] at hd
  have h1 := congrArg List.head? hd
  rw [List.append_assoc] at h1
  simp [List.head?_append] at h1

theorem sfKeyPref_sfEnKey (k : String) : sfKeyPref (sfEnKey k) = true := by
  have : "special_formatting.".data <+: (sfEnKey k).data := by
    rw [sfEnKey_data, List.append_assoc]
    exact List.prefix_append _ _
  simpa [sfKeyPref, List.isPrefixOf_iff_prefix] using this

theorem sfKeyPref_sfArgKey (k : String) : sfKeyPref (sfArgKey k) = true := by
  have : "special_formatting.".data <+: (sfArgKey k).data := by
    rw [sfArgKey_data, List.append_assoc]
    exact List.prefix_append _ _
  simpa [sfKeyPref, List.isPrefixOf_iff_prefix] using this

/-! ### Pipeline helper lemmas -/

theorem someBind {α β : Type} (a : α) (f : α → Option β) :
    (some a >>= f) = f a := rfl

theorem noneBind {α β : Type} (f : α → Option β) :
    ((Option.none : Option α) >>= f) = Option.none := rfl

theorem Version.veq_neg1 (v : Version) :
    v.veq "-1.-1" = some (pyEqInt v.major (-1) && pyEqInt v.minor (-1)) := rfl

theorem Version.load_int (c : Config) (a b : Int)
    (h1 : c.get "version.major" = some (Value.int a))
    (h2 : c.get "version.minor" = some (Value.int b)) :
    Version.load c = some ⟨Value.int a, Value.int b⟩ := by
  simp [Version.load, h1, h2]

theorem load_rewritten (c : Config) :
    Version.load (rewritten_conf c) = some ⟨Value.int 0, Value.int 0⟩ := by
  have h1 : (rewritten_conf c).get "version.major" = some (Value.int 0) := by
    rw [rewritten_conf, Config.get_save,
      Config.get_set_of_ne _ _ _ _ (by decide), Config.get_set_self]
  have h2 : (rewritten_conf c).get "version.minor" = some (Value.int 0) := by
    rw [rewritten_conf, Config.get_save, Config.get_set_self]
  exact Version.load_int _ _ _ h1 h2

theorem distinguish_spec (c : Config) (v : Version) :
    distinguish_initial_install ⟨c, v⟩ =
      if v.veq "-1.-1" = some true ∧ (c.getD "undo" Value.none).truthy = true
      then some ⟨rewritten_conf c, ⟨Value.int 0, Value.int 0⟩⟩
      else some ⟨c, v⟩ := by
  unfold distinguish_initial_install
  rw [Version.veq_neg1]
  cases hb : pyEqInt v.major (-1) && pyEqInt v.minor (-1) with
  | false => simp [Version.veq_neg1, hb]
  | true =>
      cases ht : (c.getD "undo" Value.none).truthy with
      | false => simp [Version.veq_neg1, hb, ht]
      | true =>
          have hlr := load_rewritten c
          unfold rewritten_conf at hlr ⊢
          simp [Version.veq_neg1, hb, ht, hlr]

theorem run_decisions (c0 : Config) (vs : String) (r : Config × Decisions)
    (h : firstrun_with c0 vs = some r) :
    ∃ c4, pre_version_pipeline c0 = some (c4, r.2) := by
  unfold firstrun_with at h
  cases hp : pre_version_pipeline c0 with
  | none => rw [hp] at h; simp at h
  | some p =>
      rw [hp] at h
      rw [someBind] at h
      cases hs : save_current_version p.1 vs with
      | none => rw [hs, noneBind] at h; simp at h
      | some c5 =>
          rw [hs, someBind] at h
          simp at h
          obtain ⟨p1, p2⟩ := p
          exact ⟨p1, by rw [← h]⟩

theorem run_tutorial (c0 : Config) (vs : String) (r : Config × Decisions)
    (s1 : ModState) (hr : firstrun_with c0 vs = some r)
    (hd : after_distinguish c0 = some s1) :
    s1.version.veq "-1.-1" = some r.2.tutorial := by
  obtain ⟨c4, hp⟩ := run_decisions c0 vs r hr
  unfold pre_version_pipeline at hp
  unfold after_distinguish at hd
  cases hv : Version.load c0 with
  | none => rw [hv] at hd; simp at hd
  | some v =>
      rw [hv] at hd hp
      rw [someBind] at hd
      rw [someBind] at hp
      rw [hd, someBind] at hp
      cases hc2 : change_resize_image_preserve_ratio s1.conf with
      | none => rw [hc2, noneBind] at hp; simp at hp
      | some c2 =>
          rw [hc2, someBind] at hp
          cases hc3 : change_special_formatting c2 with
          | none => rw [hc3, noneBind] at hp; simp at hp
          | some c3 =>
              rw [hc3, someBind] at hp
              cases hsh : s1.version.veq "-1.-1" with
              | none => rw [hsh, noneBind] at hp; simp at hp
              | some sh =>
                  rw [hsh, someBind] at hp
                  simp at hp
                  rw [← hp.2]

/-! ### The `change_special_formatting` loop body -/

theorem sfWrite_get_en (c : Config) (key : String) (e a : Value) :
    (sfWrite c key e a).get (sfEnKey key) = some e := by
  cases a <;>
    simp [sfWrite, Config.get_set_self,
      Config.get_set_of_ne _ _ _ _ (sfEnKey_ne_sfArgKey key key)]

theorem sfWrite_get_arg (c : Config) (key : String) (e a : Value)
    (ha : a ≠ Value.none) :
    (sfWrite c key e a).get (sfArgKey key) =
      some (Value.dict [("type", Value.str (sfArgType key)), ("value", a)]) := by
  cases a <;> first
  | exact absurd rfl ha
  | simp [sfWrite, Config.get_set_self]

theorem sfWrite_get_arg_of_none (c : Config) (key : String) (e : Value) :
    (sfWrite c key e Value.none).get (sfArgKey key) = c.get (sfArgKey key) := by
  simp [sfWrite,
    Config.get_set_of_ne _ _ _ _ (Ne.symm (sfEnKey_ne_sfArgKey key key))]

theorem sfWrite_frame (c : Config) (key : String) (e a : Value) (q : String)
    (h1 : q ≠ sfEnKey key) (h2 : q ≠ sfArgKey key) :
    (sfWrite c key e a).get q = c.get q := by
  cases a <;>
    simp [sfWrite, Config.get_set_of_ne _ _ _ _ h1, Config.get_set_of_ne _ _ _ _ h2]

theorem sfProcessKey_eq (c : Config) (key : String) (d : List (String × Value))
    (opts e a : Value)
    (hz : c.get "z_special_formatting" = some (Value.dict d))
    (hlk : lookupEntries key d = some opts)
    (hea : sfEnabledArg opts = some (e, a)) :
    sfProcessKey c key = some (sfWrite c key e a) := by
  unfold sfProcessKey
  rw [hz, someBind]
  rw [show dictLookup (Value.dict d) key = lookupEntries key d from rfl,
    hlk, someBind, hea, someBind]
  cases a <;> rfl

theorem sfProcessKey_inv (c c1 : Config) (key : String)
    (h : sfProcessKey c key = some c1) :
    ∃ e a, c1 = sfWrite c key e a := by
  unfold sfProcessKey at h
  cases hz : c.get "z_special_formatting" with
  | none => rw [hz, noneBind] at h; simp at h
  | some z =>
      rw [hz, someBind] at h
      cases hlk : dictLookup z key with
      | none => rw [hlk, noneBind] at h; simp at h
      | some opts =>
          rw [hlk, someBind] at h
          cases hea : sfEnabledArg opts with
          | none => rw [hea, noneBind] at h; simp at h
          | some ea =>
              rw [hea, someBind] at h
              obtain ⟨e, a⟩ := ea
              refine ⟨e, a, ?_⟩
              cases a <;> simp_all [sfWrite]

theorem sf_fold_frame : ∀ (ks : List String) (c c' : Config),
    List.foldlM sfProcessKey c ks = some c' →
    ∀ q, (∀ k, k ∈ ks → q ≠ sfEnKey k ∧ q ≠ sfArgKey k) →
      c'.get q = c.get q := by
  intro ks
  induction ks with
  | nil =>
      intro c c' h q _
      simp [List.foldlM_nil] at h
      rw [h]
  | cons k0 rest ih =>
      intro c c' h q hq
      rw [List.foldlM_cons] at h
      cases h1 : sfProcessKey c k0 with
      | none => rw [h1, noneBind] at h; simp at h
      | some c1 =>
          rw [h1, someBind] at h
          obtain ⟨e, a, rfl⟩ := sfProcessKey_inv c c1 k0 h1
          have hk0 := hq k0 (List.mem_cons_self k0 rest)
          rw [ih _ _ h q (fun k hk => hq k (List.mem_cons_of_mem _ hk))]
          exact sfWrite_frame c k0 e a q hk0.1 hk0.2

theorem sf_fold_spec (d : List (String × Value)) :
    ∀ (ks : List String) (c : Config),
      c.get "z_special_formatting" = some (Value.dict d) →
      ks.Nodup →
      (∀ k, k ∈ ks →
        ∃ opts e a, lookupEntries k d = some opts ∧ sfEnabledArg opts = some (e, a)) →
      ∃ c', List.foldlM sfProcessKey c ks = some c' ∧
        (∀ q, (∀ k, k ∈ ks → q ≠ sfEnKey k ∧ q ≠ sfArgKey k) → c'.get q = c.get q) ∧
        (∀ k opts e a, k ∈ ks → lookupEntries k d = some opts →
          sfEnabledArg opts = some (e, a) →
          c'.get (sfEnKey k) = some e ∧
          (a ≠ Value.none → c'.get (sfArgKey k) =
            some (Value.dict [("type", Value.str (sfArgType k)), ("value", a)])) ∧
          (a = Value.none → c'.get (sfArgKey k) = c.get (sfArgKey k))) := by
  intro ks
  induction ks with
  | nil =>
      intro c _ _ _
      refine ⟨c, by simp [List.foldlM_nil], fun q _ => rfl, ?_⟩
      intro k opts e a hk
      simp at hk
  | cons k0 rest ih =>
      intro c hz hnd hwf
      obtain ⟨opts0, e0, a0, hlk0, hea0⟩ := hwf k0 (List.mem_cons_self k0 rest)
      have hstep := sfProcessKey_eq c k0 d opts0 e0 a0 hz hlk0 hea0
      have hz1 : (sfWrite c k0 e0 a0).get "z_special_formatting" =
          some (Value.dict d) := by
        rw [sfWrite_frame c k0 e0 a0 _ (z_key_ne_sfEnKey k0) (z_key_ne_sfArgKey k0)]
        exact hz
      have hk0notin : k0 ∉ rest := (List.nodup_cons.mp hnd).1
      have hnd' : rest.Nodup := (List.nodup_cons.mp hnd).2
      obtain ⟨c', hfold, hframe, hfacts⟩ :=
        ih (sfWrite c k0 e0 a0) hz1 hnd'
          (fun k hk => hwf k (List.mem_cons_of_mem _ hk))
      refine ⟨c', ?_, ?_, ?_⟩
      · rw [List.foldlM_cons, hstep, someBind, hfold]
      · intro q hq
        rw [hframe q (fun k hk => hq k (List.mem_cons_of_mem _ hk))]
        exact sfWrite_frame c k0 e0 a0 q
          (hq k0 (List.mem_cons_self k0 rest)).1
          (hq k0 (List.mem_cons_self k0 rest)).2
      · intro k opts e a hk hlk hea
        rcases List.mem_cons.mp hk with hk | hk
        · subst hk
          have hopts : opts = opts0 := by
            rw [hlk] at hlk0
            exact Option.some.inj hlk0
          subst hopts
          have hpair : (e, a) = (e0, a0) := by
            rw [hea] at hea0
            exact Option.some.inj hea0
          have he : e = e0 := congrArg Prod.fst hpair
          have ha : a = a0 := congrArg Prod.snd hpair
          refine ⟨?_, ?_, ?_⟩
          · rw [hframe (sfEnKey k) ?_]
            · rw [sfWrite_get_en, he]
            · intro k2 hk2
              constructor
              · intro hcon
                exact hk0notin (sfEnKey_inj hcon ▸ hk2)
              · exact sfEnKey_ne_sfArgKey k k2
          · intro hane
            rw [hframe (sfArgKey k) ?_]
            · rw [sfWrite_get_arg c k e0 a0 (ha ▸ hane), ha]
            · intro k2 hk2
              constructor
              · exact fun hcon => (sfEnKey_ne_sfArgKey k2 k) hcon.symm
              · intro hcon
                exact hk0notin (sfArgKey_inj hcon ▸ hk2)
          · intro hanone
            have ha0 : a0 = Value.none := ha.symm.trans hanone
            rw [hframe (sfArgKey k) ?_]
            · rw [ha0]
              exact sfWrite_get_arg_of_none c k e0
            · intro k2 hk2
              constructor
              · exact fun hcon => (sfEnKey_ne_sfArgKey k2 k) hcon.symm
              · intro hcon
                exact hk0notin (sfArgKey_inj hcon ▸ hk2)
        · obtain ⟨hen2, harg2, hnone2⟩ := hfacts k opts e a hk hlk hea
          refine ⟨hen2, harg2, ?_⟩
          intro hanone
          rw [hnone2 hanone]
          apply sfWrite_frame c k0 e0 a0 (sfArgKey k)
          · exact Ne.symm (sfEnKey_ne_sfArgKey k0 k)
          · intro hcon
            exact hk0notin (sfArgKey_inj hcon ▸ hk)

/-! ### Claim theorems -/

/-- C8 (code bug): for a v6.x configuration whose `version.major`/`minor` are
the digit strings "6"/"23", `Version.load` is claimed to produce
`major = 6, minor = 23`; the code (line 23 assigns `self.major`) instead
produces `major = 23` and leaves `minor` as the string `"23"`. -/
theorem C8_version_load_bug :
    Version.load v6_conf = some ⟨Value.int 23, Value.str "23"⟩ ∧
    Version.load v6_conf ≠ some ⟨Value.int 6, Value.int 23⟩ := by
  constructor
  · rfl
  · intro h
    rw [show Version.load v6_conf = some ⟨Value.int 23, Value.str "23"⟩ from rfl] at h
    simp at h

/-- C9: `distinguish_initial_install` rewrites the stored version to `0.0`
(saving, and reloading the `version` object) exactly when the version loaded
from the store compares equal to `"-1.-1"` and `conf.get("undo", None)` is
truthy; otherwise — in particular when `undo` is present but falsy, the same
as when it is absent — the state is returned unchanged. -/
theorem C9_distinguish_initial_install (c : Config) (v : Version)
    (_hv : Version.load c = some v) :
    distinguish_initial_install ⟨c, v⟩ =
      if v.veq "-1.-1" = some true ∧ (c.getD "undo" Value.none).truthy = true
      then some ⟨rewritten_conf c, ⟨Value.int 0, Value.int 0⟩⟩
      else some ⟨c, v⟩ :=
  distinguish_spec c v

/-- Witness for C9: on `fresh_conf` (version `-1.-1`, no `undo` key) the
guard is falsy and the state is unchanged; with a truthy `undo` it is
rewritten to `0.0`. -/
theorem C9_distinguish_initial_install_witness :
    distinguish_initial_install ⟨fresh_conf, ⟨Value.int (-1), Value.int (-1)⟩⟩ =
      some ⟨fresh_conf, ⟨Value.int (-1), Value.int (-1)⟩⟩ := by
  have h := C9_distinguish_initial_install fresh_conf
    ⟨Value.int (-1), Value.int (-1)⟩ rfl
  rw [if_neg (by decide)] at h
  exact h

/-- C5: `change_resize_image_preserve_ratio` converts a stored boolean to an
integer (`True ↦ 1`, `False ↦ 0`) and saves; any non-boolean value is left
untouched and nothing is saved. -/
theorem C5_change_resize (c : Config) (v : Value)
    (h : c.get "resize_image_preserve_ratio" = some v) :
    change_resize_image_preserve_ratio c = some (resizeResult c v) := by
  unfold change_resize_image_preserve_ratio resizeResult
  rw [h, someBind]
  cases v with
  | bool b => cases b <;> rfl
  | int n => rfl
  | str s => rfl
  | none => rfl
  | list l => rfl
  | dict d => rfl

/-- Witness for C5: the boolean `True` becomes the integer `1` and the
configuration is saved. -/
theorem C5_change_resize_witness :
    change_resize_image_preserve_ratio resize_conf_w =
      some ⟨[("resize_image_preserve_ratio", Value.int 1)], true⟩ := by
  have h := C5_change_resize resize_conf_w (Value.bool true) rfl
  exact h

theorem change_special_of_none (c : Config)
    (hz : c.get "z_special_formatting" = Option.none) :
    change_special_formatting c = some c := by
  unfold change_special_formatting
  rw [hz]

theorem change_special_of_dict (c : Config) (d : List (String × Value))
    (hz : c.get "z_special_formatting" = some (Value.dict d)) :
    change_special_formatting c =
      (List.foldlM sfProcessKey c (d.map Prod.fst)).bind
        (fun cN => some ((cN.del "z_special_formatting").save)) := by
  unfold change_special_formatting
  rw [hz]
  rfl

/-- C2: each migration step is idempotent — rerunning
`change_resize_image_preserve_ratio`, `change_special_formatting` or
`remove_undo` on the configuration its first (successful) run produced
leaves that configuration unchanged. -/
theorem C2_migrations_idempotent :
    (∀ c c', change_resize_image_preserve_ratio c = some c' →
      change_resize_image_preserve_ratio c' = some c') ∧
    (∀ c c', change_special_formatting c = some c' →
      change_special_formatting c' = some c') ∧
    (∀ c, remove_undo (remove_undo c) = remove_undo c) := by
  refine ⟨?_, ?_, ?_⟩
  · intro c c' h
    unfold change_resize_image_preserve_ratio at h ⊢
    cases hv : c.get "resize_image_preserve_ratio" with
    | none => rw [hv, noneBind] at h; simp at h
    | some v =>
        rw [hv, someBind] at h
        cases v with
        | bool b =>
            have hc' : c' =
                (c.set "resize_image_preserve_ratio"
                  (Value.int (if b then 1 else 0))).save :=
              (Option.some.inj h).symm
            subst hc'
            rw [show ((c.set "resize_image_preserve_ratio"
                (Value.int (if b then 1 else 0))).save).get
                "resize_image_preserve_ratio" =
                some (Value.int (if b then 1 else 0)) from
              (Config.get_save _ _).trans (Config.get_set_self _ _ _), someBind]
        | int n =>
            have hc' : c' = c := (Option.some.inj h).symm
            subst hc'
            rw [hv, someBind]
        | str s =>
            have hc' : c' = c := (Option.some.inj h).symm
            subst hc'
            rw [hv, someBind]
        | none =>
            have hc' : c' = c := (Option.some.inj h).symm
            subst hc'
            rw [hv, someBind]
        | list l =>
            have hc' : c' = c := (Option.some.inj h).symm
            subst hc'
            rw [hv, someBind]
        | dict d =>
            have hc' : c' = c := (Option.some.inj h).symm
            subst hc'
            rw [hv, someBind]
  · intro c c' h
    cases hz : c.get "z_special_formatting" with
    | none =>
        rw [change_special_of_none c hz] at h
        have hc' : c' = c := (Option.some.inj h).symm
        subst hc'
        exact change_special_of_none _ hz
    | some z =>
        cases z with
        | dict d =>
            rw [change_special_of_dict c d hz] at h
            cases hf : List.foldlM sfProcessKey c (d.map Prod.fst) with
            | none => rw [hf] at h; simp at h
            | some cN =>
                rw [hf] at h
                simp at h
                have hzc' : c'.get "z_special_formatting" = Option.none := by
                  rw [← h]
                  exact (Config.get_save _ _).trans (Config.get_del_self _ _)
                exact change_special_of_none c' hzc'
        | int n => unfold change_special_formatting at h; rw [hz] at h; simp at h
        | bool b => unfold change_special_formatting at h; rw [hz] at h; simp at h
        | str s => unfold change_special_formatting at h; rw [hz] at h; simp at h
        | none => unfold change_special_formatting at h; rw [hz] at h; simp at h
        | list l => unfold change_special_formatting at h; rw [hz] at h; simp at h
  · intro c
    unfold remove_undo
    cases hu : (c.get "undo").isSome with
    | false => simp [hu]
    | true => simp [hu, Config.get_save, Config.get_del_self]

/-- Witness for C2: a second run of `change_resize_image_preserve_ratio` on
the output of the first leaves it unchanged. -/
theorem C2_migrations_idempotent_witness :
    change_resize_image_preserve_ratio
        ⟨[("resize_image_preserve_ratio", Value.int 1)], true⟩ =
      some ⟨[("resize_image_preserve_ratio", Value.int 1)], true⟩ :=
  C2_migrations_idempotent.1 resize_conf_w
    ⟨[("resize_image_preserve_ratio", Value.int 1)], true⟩ (by rfl)

/-- C10: on integer-valued versions and a version string with at least two
integer components, the comparison operators realise the lexicographic order
on `(major, minor)`: `__eq__`/`__lt__`/`__gt__` decide the lexicographic
relations, exactly one of the three holds, and `__le__`/`__ge__` hold exactly
when `__lt__ ∨ __eq__`, respectively `__gt__ ∨ __eq__`, hold. -/
theorem C10_version_order (a b M N : Int) (other : String) (ver : List Int)
    (hp : parseVerList other = some ver) (h0 : ver[0]? = some M)
    (h1 : ver[1]? = some N) :
    ((intVersion a b).veq other = some true ↔ (a = M ∧ b = N)) ∧
    ((intVersion a b).vlt other = some true ↔ (a < M ∨ (a = M ∧ b < N))) ∧
    ((intVersion a b).vgt other = some true ↔ (M < a ∨ (a = M ∧ N < b))) ∧
    ((intVersion a b).vlt other = some true ∨
      (intVersion a b).veq other = some true ∨
      (intVersion a b).vgt other = some true) ∧
    ¬((intVersion a b).vlt other = some true ∧
      (intVersion a b).veq other = some true) ∧
    ¬((intVersion a b).vlt other = some true ∧
      (intVersion a b).vgt other = some true) ∧
    ¬((intVersion a b).veq other = some true ∧
      (intVersion a b).vgt other = some true) ∧
    ((intVersion a b).vle other = some true ↔
      ((intVersion a b).vlt other = some true ∨
        (intVersion a b).veq other = some true)) ∧
    ((intVersion a b).vge other = some true ↔
      ((intVersion a b).vgt other = some true ∨
        (intVersion a b).veq other = some true)) := by
  have hveq : (intVersion a b).veq other =
      some (decide (a = M) && decide (b = N)) := by
    unfold intVersion Version.veq
    rw [hp, someBind, h0, someBind, h1, someBind]
    rfl
  have hvlt : (intVersion a b).vlt other =
      (if decide (a < M) = true then some true
       else if decide (a = M) = true then some (decide (b < N))
       else some false) := by
    unfold intVersion Version.vlt
    rw [hp, someBind, h0, someBind, h1, someBind]
    rw [show pyLtInt (Value.int a) M = some (decide (a < M)) from rfl, someBind]
    rfl
  have hvgt : (intVersion a b).vgt other =
      (if decide (M < a) = true then some true
       else if decide (a = M) = true then some (decide (N < b))
       else some false) := by
    unfold intVersion Version.vgt
    rw [hp, someBind, h0, someBind, h1, someBind]
    rw [show pyGtInt (Value.int a) M = some (decide (M < a)) from rfl, someBind]
    rfl
  have hvle : (intVersion a b).vle other =
      (if (decide (a = M) && decide (b = N)) = true then some true
       else (intVersion a b).vlt other) := by
    unfold Version.vle
    rw [hveq, someBind]
  have hvge : (intVersion a b).vge other =
      (if (decide (a = M) && decide (b = N)) = true then some true
       else (intVersion a b).vgt other) := by
    unfold Version.vge
    rw [hveq, someBind]
  rw [hvle, hvge, hveq, hvlt, hvgt]
  split_ifs <;> simp_all <;> omega

/-- Witness for C10 at `a = 1, b = 2` against the version string "1.3". -/
theorem C10_version_order_witness :
    ((intVersion 1 2).veq "1.3" = some true ↔ ((1 : Int) = 1 ∧ (2 : Int) = 3)) ∧
    ((intVersion 1 2).vlt "1.3" = some true ↔
      ((1 : Int) < 1 ∨ ((1 : Int) = 1 ∧ (2 : Int) < 3))) ∧
    ((intVersion 1 2).vgt "1.3" = some true ↔
      ((1 : Int) < 1 ∨ ((1 : Int) = 1 ∧ (3 : Int) < 2))) ∧
    ((intVersion 1 2).vlt "1.3" = some true ∨
      (intVersion 1 2).veq "1.3" = some true ∨
      (intVersion 1 2).vgt "1.3" = some true) ∧
    ¬((intVersion 1 2).vlt "1.3" = some true ∧
      (intVersion 1 2).veq "1.3" = some true) ∧
    ¬((intVersion 1 2).vlt "1.3" = some true ∧
      (intVersion 1 2).vgt "1.3" = some true) ∧
    ¬((intVersion 1 2).veq "1.3" = some true ∧
      (intVersion 1 2).vgt "1.3" = some true) ∧
    ((intVersion 1 2).vle "1.3" = some true ↔
      ((intVersion 1 2).vlt "1.3" = some true ∨
        (intVersion 1 2).veq "1.3" = some true)) ∧
    ((intVersion 1 2).vge "1.3" = some true ↔
      ((intVersion 1 2).vgt "1.3" = some true ∨
        (intVersion 1 2).veq "1.3" = some true)) :=
  C10_version_order 1 2 1 3 "1.3" [1, 3] rfl rfl rfl

/-- C7: each routine touches only its own keys — `change_resize_image_preserve_ratio`
only `resize_image_preserve_ratio`; `remove_undo` only `"undo"`;
`change_special_formatting` only `z_special_formatting` and keys prefixed
`special_formatting.`; `distinguish_initial_install` at most `version.major`
and `version.minor`. -/
theorem C7_frame :
    (∀ c c', change_resize_image_preserve_ratio c = some c' →
      ∀ q, q ≠ "resize_image_preserve_ratio" → c'.get q = c.get q) ∧
    (∀ (c : Config) (q : String), q ≠ "undo" →
      (remove_undo c).get q = c.get q) ∧
    (∀ c c', change_special_formatting c = some c' →
      ∀ q, q ≠ "z_special_formatting" → sfKeyPref q = false →
        c'.get q = c.get q) ∧
    (∀ (c : Config) (v : Version) (s' : ModState),
      distinguish_initial_install ⟨c, v⟩ = some s' →
      ∀ q, q ≠ "version.major" → q ≠ "version.minor" →
        s'.conf.get q = c.get q) := by
  refine ⟨?_, ?_, ?_, ?_⟩
  · intro c c' h q hq
    unfold change_resize_image_preserve_ratio at h
    cases hv : c.get "resize_image_preserve_ratio" with
    | none => rw [hv, noneBind] at h; simp at h
    | some v =>
        rw [hv, someBind] at h
        cases v with
        | bool b =>
            rw [← Option.some.inj h]
            exact (Config.get_save _ _).trans (Config.get_set_of_ne _ _ _ _ hq)
        | int n => rw [← Option.some.inj h]
        | str s => rw [← Option.some.inj h]
        | none => rw [← Option.some.inj h]
        | list l => rw [← Option.some.inj h]
        | dict d => rw [← Option.some.inj h]
  · intro c q hq
    unfold remove_undo
    cases hu : (c.get "undo").isSome with
    | false => simp [hu]
    | true =>
        simp only [hu, if_true]
        exact (Config.get_save _ _).trans (Config.get_del_of_ne _ _ _ hq)
  · intro c c' h q hq hpref
    cases hz : c.get "z_special_formatting" with
    | none =>
        rw [change_special_of_none c hz] at h
        rw [← Option.some.inj h]
    | some z =>
        cases z with
        | dict d =>
            rw [change_special_of_dict c d hz] at h
            cases hf : List.foldlM sfProcessKey c (d.map Prod.fst) with
            | none => rw [hf] at h; simp at h
            | some cN =>
                rw [hf] at h
                simp at h
                rw [← h, Config.get_save, Config.get_del_of_ne _ _ _ hq]
                refine sf_fold_frame _ c cN hf q ?_
                intro k _
                constructor
                · intro hcon
                  rw [hcon, sfKeyPref_sfEnKey] at hpref
                  simp at hpref
                · intro hcon
                  rw [hcon, sfKeyPref_sfArgKey] at hpref
                  simp at hpref
        | int n => unfold change_special_formatting at h; rw [hz] at h; simp at h
        | bool b => unfold change_special_formatting at h; rw [hz] at h; simp at h
        | str s => unfold change_special_formatting at h; rw [hz] at h; simp at h
        | none => unfold change_special_formatting at h; rw [hz] at h; simp at h
        | list l => unfold change_special_formatting at h; rw [hz] at h; simp at h
  · intro c v s' h q h1 h2
    rw [distinguish_spec] at h
    by_cases hcond : v.veq "-1.-1" = some true ∧
        (c.getD "undo" Value.none).truthy = true
    · rw [if_pos hcond] at h
      rw [← Option.some.inj h]
      show (rewritten_conf c).get q = c.get q
      rw [rewritten_conf, Config.get_save,
        Config.get_set_of_ne _ _ _ _ h2, Config.get_set_of_ne _ _ _ _ h1]
    · rw [if_neg hcond] at h
      rw [← Option.some.inj h]

/-- Witness for C7: converting the boolean `resize_image_preserve_ratio`
leaves an unrelated key (`version.major`) untouched. -/
theorem C7_frame_witness :
    (⟨[("resize_image_preserve_ratio", Value.int 1)], true⟩ : Config).get
        "version.major" = resize_conf_w.get "version.major" :=
  C7_frame.1 resize_conf_w
    ⟨[("resize_image_preserve_ratio", Value.int 1)], true⟩ (by rfl)
    "version.major" (by decide)

/-- C6: when `z_special_formatting` holds a dict, `change_special_formatting`
flattens it — for each entry `(k, opts)`, `special_formatting.k.enabled`
receives `opts[0]` (a list) or `opts` itself (otherwise);
`special_formatting.k.arg` is set ONLY when the argument (`opts[1]` for a
list, `None` otherwise) is not `None` — then it receives
`{"type": t, "value": arg}` with `t` `"color"` for `fontcolor`/`highlight`
and `"text"` otherwise, and for a `None` argument the arg key is left
exactly as it was in the starting configuration; afterwards
`z_special_formatting` is deleted and the config saved.  When the key is
absent the configuration is returned unchanged. -/
theorem C6_change_special_formatting :
    (∀ (c : Config) (d : List (String × Value)),
      c.get "z_special_formatting" = some (Value.dict d) →
      (d.map Prod.fst).Nodup →
      (∀ p, p ∈ d → (sfEnabledArg p.2).isSome = true) →
      ∃ c', change_special_formatting c = some c' ∧
        c'.get "z_special_formatting" = Option.none ∧
        c'.saved = true ∧
        (∀ k opts e a, lookupEntries k d = some opts →
          sfEnabledArg opts = some (e, a) →
          c'.get (sfEnKey k) = some e ∧
          (a ≠ Value.none → c'.get (sfArgKey k) =
            some (Value.dict [("type", Value.str (sfArgType k)), ("value", a)])) ∧
          (a = Value.none → c'.get (sfArgKey k) = c.get (sfArgKey k)))) ∧
    (∀ c : Config, c.get "z_special_formatting" = Option.none →
      change_special_formatting c = some c) := by
  constructor
  · intro c d hz hnd hwf
    have hwf2 : ∀ k, k ∈ d.map Prod.fst →
        ∃ opts e a, lookupEntries k d = some opts ∧
          sfEnabledArg opts = some (e, a) := by
      intro k hk
      obtain ⟨opts, hopts⟩ := lookupEntries_isSome_of_mem_keys k d hk
      have hmem := mem_of_lookupEntries k opts d hopts
      have hs := hwf (k, opts) hmem
      obtain ⟨ea, hea⟩ := Option.isSome_iff_exists.mp hs
      exact ⟨opts, ea.1, ea.2, hopts, by rw [hea]⟩
    obtain ⟨cN, hfold, hframe, hfacts⟩ :=
      sf_fold_spec d (d.map Prod.fst) c hz hnd hwf2
    refine ⟨(cN.del "z_special_formatting").save, ?_, ?_, rfl, ?_⟩
    · rw [change_special_of_dict c d hz, hfold]
      rfl
    · exact (Config.get_save _ _).trans (Config.get_del_self _ _)
    · intro k opts e a hlk hea
      have hkmem : k ∈ d.map Prod.fst :=
        List.mem_map_of_mem Prod.fst (mem_of_lookupEntries k opts d hlk)
      obtain ⟨hen, harg, hnone⟩ := hfacts k opts e a hkmem hlk hea
      refine ⟨?_, ?_, ?_⟩
      · rw [Config.get_save,
          Config.get_del_of_ne _ _ _ (Ne.symm (z_key_ne_sfEnKey k))]
        exact hen
      · intro ha
        rw [Config.get_save,
          Config.get_del_of_ne _ _ _ (Ne.symm (z_key_ne_sfArgKey k))]
        exact harg ha
      · intro ha
        rw [Config.get_save,
          Config.get_del_of_ne _ _ _ (Ne.symm (z_key_ne_sfArgKey k))]
        exact hnone ha
  · intro c hz
    exact change_special_of_none c hz

/-- Witness for C6 on a two-entry legacy dict (a `[enabled, arg]` list for
`fontcolor` and a bare boolean for `bold`). -/
theorem C6_change_special_formatting_witness :
    ∃ c', change_special_formatting special_conf_w = some c' ∧
      c'.get "z_special_formatting" = Option.none ∧
      c'.saved = true ∧
      (∀ k opts e a, lookupEntries k z_dict_w = some opts →
        sfEnabledArg opts = some (e, a) →
        c'.get (sfEnKey k) = some e ∧
        (a ≠ Value.none → c'.get (sfArgKey k) =
          some (Value.dict [("type", Value.str (sfArgType k)), ("value", a)])) ∧
        (a = Value.none → c'.get (sfArgKey k) =
          special_conf_w.get (sfArgKey k))) :=
  C6_change_special_formatting.1 special_conf_w z_dict_w rfl (by decide) (by decide)

/-- C3 (counterexample — negation of the claim): no branch of the routine
depends on a comparison with the current add-on version string.  There is no
starting configuration and pair of add-on version strings for which two
successful runs differ in any one-time decision (migrations applied, version
rewrite, tutorial). -/
theorem C3_no_branch_on_addon_version :
    ¬ ∃ (c0 : Config) (vs1 vs2 : String) (r1 r2 : Config × Decisions),
        firstrun_with c0 vs1 = some r1 ∧ firstrun_with c0 vs2 = some r2 ∧
        r1.2 ≠ r2.2 := by
  rintro ⟨c0, vs1, vs2, r1, r2, hr1, hr2, hne⟩
  obtain ⟨c41, hp1⟩ := run_decisions c0 vs1 r1 hr1
  obtain ⟨c42, hp2⟩ := run_decisions c0 vs2 r2 hr2
  rw [hp1] at hp2
  have hps := Option.some.inj hp2
  have hd : (c41, r1.2).2 = (c42, r2.2).2 := congrArg Prod.snd hps
  exact hne hd

/-- C3 (amended): the routine's one-time decisions (which migrations apply,
whether the version is rewritten, whether the tutorial shows) depend only on
the starting configuration — every version comparison is against the fixed
literal `"-1.-1"`; the current add-on version is only written at the end. -/
theorem C3_decisions_independent (c0 : Config) (vs1 vs2 : String)
    (r1 r2 : Config × Decisions) (h1 : firstrun_with c0 vs1 = some r1)
    (h2 : firstrun_with c0 vs2 = some r2) : r1.2 = r2.2 := by
  obtain ⟨c41, hp1⟩ := run_decisions c0 vs1 r1 h1
  obtain ⟨c42, hp2⟩ := run_decisions c0 vs2 r2 h2
  rw [hp1] at hp2
  have hps := Option.some.inj hp2
  have hd : (c41, r1.2).2 = (c42, r2.2).2 := congrArg Prod.snd hps
  exact hd

/-- Witness for C3 (amended): two runs on `plain_conf` with add-on versions
"7.0" and "8.5" make identical decisions. -/
theorem C3_decisions_independent_witness :
    ∃ r1 r2, firstrun_with plain_conf "7.0" = some r1 ∧
      firstrun_with plain_conf "8.5" = some r2 ∧ r1.2 = r2.2 :=
  ⟨_, _, rfl, rfl, C3_decisions_independent plain_conf "7.0" "8.5" _ _ rfl rfl⟩

/-- C4: whenever the module finishes, the stored `version.major`/`minor`
equal the integer components of the chosen version string (environment
variable `EFDRC_VERSION` if non-empty, else the metadata `human_version`,
defaulting to "6.23"), and the configuration has been saved. -/
theorem C4_records_version (c0 : Config) (env human : Option String)
    (r : Config × Decisions) (M N : Int)
    (hrun : firstrun_module c0 env human = some r)
    (hM : ((splitDot (choose_version_string env human))[0]?).bind parsePyInt =
      some M)
    (hN : ((splitDot (choose_version_string env human))[1]?).bind parsePyInt =
      some N) :
    r.1.get "version.major" = some (Value.int M) ∧
    r.1.get "version.minor" = some (Value.int N) ∧
    r.1.saved = true := by
  unfold firstrun_module firstrun_with at hrun
  cases hp : pre_version_pipeline c0 with
  | none => rw [hp, noneBind] at hrun; simp at hrun
  | some p =>
      rw [hp, someBind] at hrun
      cases hs : save_current_version p.1 (choose_version_string env human) with
      | none => rw [hs, noneBind] at hrun; simp at hrun
      | some c5 =>
          rw [hs, someBind] at hrun
          have hr : r = (c5, p.2) := (Option.some.inj hrun).symm
          unfold save_current_version at hs
          rw [hM, someBind, hN, someBind] at hs
          have hc5 : c5 = ((p.1.set "version.major" (Value.int M)).set
              "version.minor" (Value.int N)).save := (Option.some.inj hs).symm
          rw [hr, hc5]
          refine ⟨?_, ?_, rfl⟩
          · exact (Config.get_save _ _).trans
              ((Config.get_set_of_ne _ _ _ _ (by decide)).trans
                (Config.get_set_self _ _ _))
          · exact (Config.get_save _ _).trans (Config.get_set_self _ _ _)

/-- Witness for C4: running on `plain_conf` with `EFDRC_VERSION=7.1` stores
version `7.1` and saves. -/
theorem C4_records_version_witness :
    ∃ r, firstrun_module plain_conf (some "7.1") Option.none = some r ∧
      r.1.get "version.major" = some (Value.int 7) ∧
      r.1.get "version.minor" = some (Value.int 1) ∧
      r.1.saved = true :=
  ⟨_, rfl, C4_records_version plain_conf (some "7.1") Option.none _ 7 1
    rfl rfl rfl⟩

/-- C1 (counterexample): the claim "the tutorial is shown iff, after
`distinguish_initial_install`, the stored `version.major` and
`version.minor` compare equal (Python `==`) to `-1`" fails on `mixed_conf`,
where `version.major` is stored as the STRING `"-1"`: `Version.load`
int-converts it, so the tutorial IS shown, yet the stored major (a string)
does not compare equal to the int `-1`. -/
theorem C1_tutorial_counterexample :
    ¬ (∀ (r : Config × Decisions) (s1 : ModState),
        firstrun_module mixed_conf (some "6.23") Option.none = some r →
        after_distinguish mixed_conf = some s1 →
        (r.2.tutorial = true ↔
          ((∃ v, s1.conf.get "version.major" = some v ∧ pyEqInt v (-1) = true) ∧
           (∃ v, s1.conf.get "version.minor" = some v ∧
             pyEqInt v (-1) = true)))) := by
  intro h
  have h2 := h
    (⟨[("version.major", Value.int 6), ("version.minor", Value.int 23),
       ("resize_image_preserve_ratio", Value.int 1)], true⟩,
     ⟨false, false, false, false, true⟩)
    ⟨mixed_conf, ⟨Value.int (-1), Value.int (-1)⟩⟩ rfl rfl
  obtain ⟨⟨v, hv, hpe⟩, -⟩ := h2.mp rfl
  have hv5 := (show (⟨mixed_conf, ⟨Value.int (-1), Value.int (-1)⟩⟩ :
    ModState).conf.get "version.major" = some (Value.str "-1") from
      rfl).symm.trans hv
  have hv6 := Option.some.inj hv5
  have hv2 : v = Value.str "-1" := hv6.symm
  subst hv2
  simp [pyEqInt] at hpe

/-- C1 (amended): when the stored `version.major`/`minor` are Python ints,
the tutorial dialog is shown iff after `distinguish_initial_install` the
stored `version.major` and `version.minor` are both the integer `-1`. -/
theorem C1_tutorial_iff (c0 : Config) (env human : Option String)
    (r : Config × Decisions) (s1 : ModState) (a b : Int)
    (hM : c0.get "version.major" = some (Value.int a))
    (hN : c0.get "version.minor" = some (Value.int b))
    (hrun : firstrun_module c0 env human = some r)
    (hdist : after_distinguish c0 = some s1) :
    (r.2.tutorial = true ↔
      (s1.conf.get "version.major" = some (Value.int (-1)) ∧
       s1.conf.get "version.minor" = some (Value.int (-1)))) := by
  have hl : Version.load c0 = some ⟨Value.int a, Value.int b⟩ :=
    Version.load_int c0 a b hM hN
  have htut := run_tutorial c0 (choose_version_string env human) r s1 hrun hdist
  have hd2 := hdist
  unfold after_distinguish at hd2
  rw [hl, someBind, distinguish_spec] at hd2
  by_cases hcond : (⟨Value.int a, Value.int b⟩ : Version).veq "-1.-1" =
      some true ∧ (c0.getD "undo" Value.none).truthy = true
  · rw [if_pos hcond] at hd2
    have hs1 : s1 = ⟨rewritten_conf c0, ⟨Value.int 0, Value.int 0⟩⟩ :=
      (Option.some.inj hd2).symm
    subst hs1
    rw [show (⟨rewritten_conf c0, ⟨Value.int 0, Value.int 0⟩⟩ :
      ModState).version.veq "-1.-1" = some false from rfl] at htut
    have htf : r.2.tutorial = false := (Option.some.inj htut).symm
    rw [htf]
    constructor
    · intro hcon
      simp at hcon
    · intro hcon
      have hg : (rewritten_conf c0).get "version.major" = some (Value.int 0) := by
        rw [rewritten_conf, Config.get_save,
          Config.get_set_of_ne _ _ _ _ (by decide), Config.get_set_self]
      have hcon1 := hcon.1
      rw [show (⟨rewritten_conf c0, ⟨Value.int 0, Value.int 0⟩⟩ :
        ModState).conf = rewritten_conf c0 from rfl] at hcon1
      rw [hg] at hcon1
      simp at hcon1
  · rw [if_neg hcond] at hd2
    have hs1 : s1 = ⟨c0, ⟨Value.int a, Value.int b⟩⟩ :=
      (Option.some.inj hd2).symm
    subst hs1
    rw [show (⟨c0, ⟨Value.int a, Value.int b⟩⟩ :
      ModState).version.veq "-1.-1" =
        some (decide (a = -1) && decide (b = -1)) from rfl] at htut
    have htf : r.2.tutorial = (decide (a = -1) && decide (b = -1)) :=
      (Option.some.inj htut).symm
    rw [htf]
    rw [show (⟨c0, ⟨Value.int a, Value.int b⟩⟩ : ModState).conf = c0 from rfl]
    rw [hM, hN]
    simp

/-- Witness for C1 (amended): on `fresh_conf` (integer version `-1.-1`, no
truthy `undo`) the tutorial is shown and the stored version is still `-1.-1`
after `distinguish_initial_install`. -/
theorem C1_tutorial_iff_witness :
    ∃ r s1, firstrun_module fresh_conf (some "6.23") Option.none = some r ∧
      after_distinguish fresh_conf = some s1 ∧
      (r.2.tutorial = true ↔
        (s1.conf.get "version.major" = some (Value.int (-1)) ∧
         s1.conf.get "version.minor" = some (Value.int (-1)))) :=
  ⟨_, _, rfl, rfl, C1_tutorial_iff fresh_conf (some "6.23") Option.none _ _
    (-1) (-1) rfl rfl rfl rfl⟩
